/-
  Verification of the hospital patient-record store
  (src/patient_management.c, linked-list variant).

  Shallow embedding: the global state (patientHead, totalPatients,
  patientIDCounter) becomes an explicit `PatientSys` record, the on-disk
  files become an explicit `FS` record, and each C function becomes a Lean
  function on these records.  File-system and stdio failures that the C
  code checks for are supplied through explicit oracle records.  `time_t`
  values are modelled as `Int` (seconds); `localtime` is an explicit
  environment function `Int → CalParts`.
-/
import Mathlib

namespace Hospital

/-- A patient record (struct Patient from patient_data.h; its fields are
    those read and written by src/patient_management.c). -/
structure Patient where
  patientId : Int
  name : String
  ageInYears : Int
  diagnosis : String
  roomNumber : Int
  admissionDate : Int
deriving Repr, DecidableEq

/-- A discharged-patient archive entry (struct DischargedPatient):
    a snapshot of the patient plus the discharge time. -/
structure DischargedPatient where
  patient : Patient
  dischargeDate : Int
deriving Repr, DecidableEq

/-- The in-memory store: the linked list of active patients (list order =
    link order from patientHead), the patient count, and the ID counter.
    These are the three module-level globals of patient_management.c. -/
structure PatientSys where
  patientHead : List Patient
  totalPatients : Int
  patientIDCounter : Int
deriving Repr, DecidableEq

/-- Content of patients.dat at record granularity: the sequence of complete
    fixed-layout Patient entries, plus the number of trailing bytes after
    the last complete entry (a truncated final record; 0 for a cleanly
    written file).  `fread(&p, sizeof(Patient), 1, f)` returns 1 exactly
    when a further complete entry is available. -/
structure DatFile where
  records : List Patient
  trailingBytes : Nat
deriving Repr, DecidableEq

/-- A whitespace-separated token of room_usage.txt as seen by
    `fscanf("%d", ...)`: either an integer, or a token that does not parse
    as an integer (fscanf returns 0 on it). -/
inductive UsageToken where
  | num (n : Int) : UsageToken
  | bad : UsageToken
deriving Repr, DecidableEq

/-- The files the patient-management code touches.  `patientsDat` and
    `patientsTmp` are `none` when the file does not exist. -/
structure FS where
  patientsDat : Option DatFile
  patientsTmp : Option DatFile
  dischargedDat : List DischargedPatient
  roomUsage : List UsageToken
deriving Repr, DecidableEq

-- Constants from patient_management.c.
def ROOM_UNOCCUPIED : Int := -1
def DEFAULT_ID : Int := 1
def IS_EMPTY : Int := 0

/-- Function `isRoomOccupiedInList`: walks the list; returns 1 on the first record
    whose roomNumber matches, ROOM_UNOCCUPIED (-1) if none does. -/
def isRoomOccupiedInList (roomNumber : Int) : List Patient → Int
  | [] => ROOM_UNOCCUPIED
  | p :: rest =>
    if p.roomNumber = roomNumber then 1 else isRoomOccupiedInList roomNumber rest

/-- Function `insertPatientAtEndOfList`: walks to the last node and links a new node
    holding `data` (the successful-malloc path). -/
def insertPatientAtEndOfList : List Patient → Patient → List Patient
  | [], data => [data]
  | p :: rest, data => p :: insertPatientAtEndOfList rest data

/-- The scanning loop of `computeNextPatientId`: running maximum of the
    patient IDs, starting from the given accumulator. -/
def maxIdLoop : List Patient → Int → Int
  | [], maxId => maxId
  | p :: rest, maxId =>
    maxIdLoop rest (if p.patientId > maxId then p.patientId else maxId)

/-- Function `computeNextPatientId`: max patient ID over the list (0 if empty) + 1. -/
def computeNextPatientId (head : List Patient) : Int :=
  maxIdLoop head 0 + 1

/-- Function `getPatientFromList`: first record with the given ID, if any. -/
def getPatientFromList (id : Int) : List Patient → Option Patient
  | [] => none
  | p :: rest =>
    if p.patientId = id then some p else getPatientFromList id rest

/-- Modelled from the spec: `validateRoomNumber` (declared in utils.h /
    patient_data.h, not under src/): valid iff the room number lies in the
    fixed valid range [1, 50] (spec §4.1 `validateRoom`, §4.4 room range). -/
def validateRoomNumber (n : Int) : Bool :=
  decide (1 ≤ n) && decide (n ≤ 50)

/-- Modelled from the spec: `createPatient` (patient_data.h, not under
    src/): builds a Patient from the validated fields, the ID argument
    (the store's counter at the call in addPatientRecord), and the current
    time as the admission timestamp (spec §4.2 Admit: assigns `id =
    counter`, sets admission timestamp to current time). -/
def createPatient (name : String) (age : Int) (diagnosis : String)
    (room : Int) (id : Int) (now : Int) : Patient :=
  { patientId := id, name := name, ageInYears := age, diagnosis := diagnosis,
    roomNumber := room, admissionDate := now }

/-- The acceptance test of one iteration of `getRoomNumber`'s input loop:
    a requested room is accepted (the loop exits) iff it passes
    `validateRoomNumber` and `isRoomOccupiedInList` returns
    ROOM_UNOCCUPIED on the current list; otherwise the loop re-prompts. -/
def roomAccepted (room : Int) (head : List Patient) : Bool :=
  validateRoomNumber room &&
    decide (isRoomOccupiedInList room head = ROOM_UNOCCUPIED)

/-- The in-memory effect of `addPatientRecord` once the input loops have
    produced validated fields and an accepted room: create the patient with
    the current counter, insert at end of list, bump count and counter. -/
def addPatientRecord (sys : PatientSys) (name : String) (age : Int)
    (diagnosis : String) (room : Int) (now : Int) : PatientSys :=
  let newPatient :=
    createPatient name age diagnosis room sys.patientIDCounter now
  { patientHead := insertPatientAtEndOfList sys.patientHead newPatient,
    totalPatients := sys.totalPatients + 1,
    patientIDCounter := sys.patientIDCounter + 1 }

/-- Function `viewPatientRecords`: traverses the list from patientHead printing each
    record; modelled as the sequence of records printed, in order. -/
def viewPatientRecords : List Patient → List Patient
  | [] => []
  | p :: rest => p :: viewPatientRecords rest

/-- Function `writePatientToFile`: fopen("patients.dat","ab") (created when missing)
    and append one record.  `openFails` models a failed fopen, in which
    case nothing is written.  The model is record-granular: the appended
    entry is placed after the existing complete entries (the system only
    ever appends to files it wrote itself, which have no trailing
    fragment). -/
def writePatientToFile (newPatient : Patient) (openFails : Bool)
    (fs : FS) : FS :=
  if openFails then fs
  else
    match fs.patientsDat with
    | none => { fs with patientsDat := some ⟨[newPatient], 0⟩ }
    | some f =>
      { fs with patientsDat := some ⟨f.records ++ [newPatient], f.trailingBytes⟩ }

/-- Function `addPatientRecord` with its file side effect: the store
    update followed by the append of the new record to patients.dat. -/
def addPatientRecordFull (sys : PatientSys) (fs : FS) (name : String)
    (age : Int) (diagnosis : String) (room : Int) (now : Int)
    (appendOpenFails : Bool) : PatientSys × FS :=
  (addPatientRecord sys name age diagnosis room now,
   writePatientToFile
     (createPatient name age diagnosis room sys.patientIDCounter now)
     appendOpenFails fs)

/-- Failure oracle for `updatePatientsFile`: whether fopen of patients.tmp
    fails, the index of the first fwrite that fails (if any; an index
    beyond the list length means every issued write succeeds), and whether
    the final fclose fails. -/
structure WriteOracle where
  tmpOpenFails : Bool
  tmpWriteFailsAt : Option Nat
  tmpCloseFails : Bool
deriving Repr, DecidableEq

/-- The records the `updatePatientsFile` write loop gets onto patients.tmp:
    everything before the first failing fwrite (the loop breaks there). -/
def writtenTmpRecords (mem : List Patient) (failAt : Option Nat) : List Patient :=
  match failAt with
  | none => mem
  | some i => mem.take i

/-- The `write_error` flag set by the write loop: true iff some issued
    fwrite failed, i.e. the first failing index falls inside the list. -/
def tmpWriteError (mem : List Patient) (failAt : Option Nat) : Bool :=
  match failAt with
  | none => false
  | some i => decide (i < mem.length)

/-- Function `updatePatientsFile`: write the whole in-memory list to patients.tmp;
    on a clean write and clean fclose, remove patients.dat and rename
    patients.tmp over it; on any write or close error, leave patients.dat
    alone and remove patients.tmp.  The remove and rename calls themselves
    are modelled as succeeding (the C code reports but does not otherwise
    handle their failure). -/
def updatePatientsFile (mem : List Patient) (o : WriteOracle) (fs : FS) : FS :=
  if o.tmpOpenFails then fs
  else
    let written := writtenTmpRecords mem o.tmpWriteFailsAt
    if tmpWriteError mem o.tmpWriteFailsAt || o.tmpCloseFails then
      { fs with patientsTmp := none }
    else
      { fs with patientsDat := some ⟨written, 0⟩, patientsTmp := none }

/-- Function `logRoomUsage`: fopen("room_usage.txt","a") and append one integer
    line; on a failed fopen nothing is written. -/
def logRoomUsage (roomNumber : Int) (openFails : Bool) (fs : FS) : FS :=
  if openFails then fs
  else { fs with roomUsage := fs.roomUsage ++ [UsageToken.num roomNumber] }

/-- First-match removal performed by `removePatientFromSystem`'s unlink
    walk: drops the first node whose patientId matches. -/
def removeById (id : Int) : List Patient → List Patient
  | [] => []
  | p :: rest => if p.patientId = id then rest else p :: removeById id rest

/-- Function `removePatientFromSystem`: if a node with the given ID is in the list,
    unlink it, decrement totalPatients, and rewrite patients.dat via
    `updatePatientsFile`; otherwise change nothing. -/
def removePatientFromSystem (id : Int) (sys : PatientSys) (fs : FS)
    (o : WriteOracle) : PatientSys × FS :=
  if sys.patientHead = [] then (sys, fs)
  else
    match getPatientFromList id sys.patientHead with
    | none => (sys, fs)
    | some _ =>
      let newHead := removeById id sys.patientHead
      ({ sys with patientHead := newHead,
                  totalPatients := sys.totalPatients - 1 },
       updatePatientsFile newHead o fs)

/-- Function `confirmDischarge`: reads one character and returns whether it is
    exactly the lowercase letter y. -/
def confirmDischarge (confirm : Char) : Bool :=
  confirm = 'y'

/-- Failure oracle for `dischargePatient`'s file operations. -/
structure DischargeOracle where
  archiveOpenFails : Bool
  archiveWriteFails : Bool
  roomLogOpenFails : Bool
  update : WriteOracle
deriving Repr, DecidableEq

/-- Function `dischargePatient`: look up the entered ID; if found and the operator
    confirms with exactly the character y, append a DischargedPatient
    stamped `now` to discharged_patients.dat — returning early, with the
    store untouched, if that fopen or fwrite fails — then log the room
    usage and remove the patient from the list (which rewrites
    patients.dat).  On a failed fwrite the partially written final entry is
    not represented (the archive is modelled unchanged). -/
def dischargePatient (sys : PatientSys) (fs : FS) (enteredId : Int)
    (confirm : Char) (now : Int) (o : DischargeOracle) : PatientSys × FS :=
  if sys.patientHead = [] then (sys, fs)
  else
    match getPatientFromList enteredId sys.patientHead with
    | none => (sys, fs)
    | some p =>
      if confirmDischarge confirm then
        if o.archiveOpenFails then (sys, fs)
        else if o.archiveWriteFails then (sys, fs)
        else
          let fs1 :=
            { fs with dischargedDat := fs.dischargedDat ++ [⟨p, now⟩] }
          let fs2 := logRoomUsage p.roomNumber o.roomLogOpenFails fs1
          removePatientFromSystem p.patientId sys fs2 o.update
      else (sys, fs)

/-- Function `initializePatientSystemDefault`: empty list, zero count, counter at
    DEFAULT_ID. -/
def initializePatientSystemDefault : PatientSys :=
  { patientHead := [], totalPatients := IS_EMPTY,
    patientIDCounter := DEFAULT_ID }

/-- Function `initializePatientSystem`: clear memory, then load patients.dat.
    A missing file or an empty file (first fgetc hits EOF) falls back to
    the default state, leaving the file as it is.  Otherwise the fread
    loop reads every complete record in file order and stops at the
    trailing fragment (fread returns 0 there); if no complete record was
    read the file is cleared and the default state is used; if records
    were read the counter becomes `computeNextPatientId`.  Returns the new
    store state and the (possibly cleared) patients.dat content. -/
def initializePatientSystem (dat : Option DatFile) :
    PatientSys × Option DatFile :=
  match dat with
  | none => (initializePatientSystemDefault, none)
  | some f =>
    if f.records = [] ∧ f.trailingBytes = 0 then
      (initializePatientSystemDefault, some f)
    else
      if f.records = [] then
        (initializePatientSystemDefault, some ⟨[], 0⟩)
      else
        ({ patientHead := f.records,
           totalPatients := (f.records.length : Int),
           patientIDCounter := computeNextPatientId f.records }, some f)

/-- The calendar fields of `struct tm` that the reporting code reads:
    tm_year, tm_yday, tm_mon.  `localtime` is modelled as an explicit
    environment function `Int → CalParts`. -/
structure CalParts where
  year : Int
  yday : Int
  mon : Int
deriving Repr, DecidableEq

/-- C's `(int)(secondsDiff / 3600)` on an integral double: division
    truncated toward zero (the double quotient of integers below 2^53 by
    3600 never rounds across an integer boundary, so the cast truncates
    the exact rational quotient). -/
def cDivTrunc (a b : Int) : Int :=
  if 0 ≤ a then ((a.toNat / b.toNat : Nat) : Int)
  else -((a.natAbs / b.natAbs : Nat) : Int)

/-- The `past24Hours` condition of countPatientsByTimeframe /
    printFormattedReport: the truncated hour difference is at most 24. -/
def past24Hours (now adm : Int) : Bool :=
  decide (cDivTrunc (now - adm) 3600 ≤ 24)

/-- The `sameWeek` condition: same tm_year and day-of-year difference
    (current minus admission) strictly below 7. -/
def sameWeek (cal : Int → CalParts) (now adm : Int) : Bool :=
  decide ((cal adm).year = (cal now).year) &&
    decide ((cal now).yday - (cal adm).yday < 7)

/-- The `sameMonth` condition: same tm_year and same tm_mon. -/
def sameMonth (cal : Int → CalParts) (now adm : Int) : Bool :=
  decide ((cal adm).year = (cal now).year) &&
    decide ((cal adm).mon = (cal now).mon)

/-- The timeframe filter shared by countPatientsByTimeframe and
    printFormattedReport: 1 = daily, 2 = weekly, 3 = monthly. -/
def timeframeMatch (timeframe : Int) (cal : Int → CalParts)
    (now adm : Int) : Bool :=
  (decide (timeframe = 1) && past24Hours now adm) ||
    (decide (timeframe = 2) && sameWeek cal now adm) ||
      (decide (timeframe = 3) && sameMonth cal now adm)

/-- The counting loop of `countPatientsByTimeframe`. -/
def countByTimeframeLoop (timeframe : Int) (cal : Int → CalParts)
    (now : Int) : List Patient → Int → Int
  | [], count => count
  | p :: rest, count =>
    countByTimeframeLoop timeframe cal now rest
      (if timeframeMatch timeframe cal now p.admissionDate then count + 1
       else count)

/-- Function `countPatientsByTimeframe`: 0 on an empty list, else the number of
    records whose admission timestamp matches the timeframe filter. -/
def countPatientsByTimeframe (head : List Patient) (timeframe : Int)
    (now : Int) (cal : Int → CalParts) : Int :=
  if head = [] then 0
  else countByTimeframeLoop timeframe cal now head 0

/-- The records whose detail lines `printFormattedReport` emits: none when
    the passed-in count is 0, otherwise every record of the list matching
    the timeframe filter, in list order. -/
def printFormattedReportRecords (head : List Patient) (result : Int)
    (timeframe : Int) (now : Int) (cal : Int → CalParts) : List Patient :=
  if result = 0 then []
  else head.filter (fun p => timeframeMatch timeframe cal now p.admissionDate)

/-- The accumulating state of `displayRoomUsageReport`'s fscanf loop:
    the roomCounts array (indexed by room number) and the two tallies. -/
structure RoomUsageScan where
  roomCounts : Int → Int
  totalEntries : Int
  validEntries : Int

/-- One roomCounts[n]++ update. -/
def bumpRoom (counts : Int → Int) (n : Int) : Int → Int :=
  fun r => if r = n then counts n + 1 else counts r

/-- The `while(fscanf(file, "%d", &roomNumber) == 1)` loop of
    `displayRoomUsageReport`: an integer token bumps totalEntries and, when
    in 1..50, its room count and validEntries (out-of-range integers are
    warned about and skipped, scanning continues); a token that does not
    parse as an integer makes fscanf return 0 and ends the loop there. -/
def roomScanLoop : List UsageToken → RoomUsageScan → RoomUsageScan
  | [], st => st
  | UsageToken.bad :: _, st => st
  | UsageToken.num n :: rest, st =>
    if 1 ≤ n ∧ n ≤ 50 then
      roomScanLoop rest
        { roomCounts := bumpRoom st.roomCounts n,
          totalEntries := st.totalEntries + 1,
          validEntries := st.validEntries + 1 }
    else
      roomScanLoop rest { st with totalEntries := st.totalEntries + 1 }

/-- The parsing phase of `displayRoomUsageReport` on the token sequence of
    room_usage.txt, starting from the zeroed counts array. -/
def displayRoomUsageReportScan (tokens : List UsageToken) : RoomUsageScan :=
  roomScanLoop tokens
    { roomCounts := fun _ => 0, totalEntries := 0, validEntries := 0 }

/-- One admission's caller-supplied inputs (already validated fields, and
    the time `time(NULL)` returns inside createPatient). -/
structure AdmitInput where
  name : String
  age : Int
  diagnosis : String
  room : Int
  now : Int
deriving Repr, DecidableEq

/-- A run of successive `addPatientRecord` calls. -/
def runAdmits (sys : PatientSys) : List AdmitInput → PatientSys
  | [] => sys
  | i :: rest => runAdmits (addPatientRecord sys i.name i.age i.diagnosis i.room i.now) rest

/-- The records such a run creates, with the IDs the counter hands out. -/
def admittedRecords (counter : Int) : List AdmitInput → List Patient
  | [] => []
  | i :: rest =>
    createPatient i.name i.age i.diagnosis i.room counter i.now ::
      admittedRecords (counter + 1) rest

/-- Each admission's room passes `getRoomNumber`'s acceptance test against
    the list as it stands at that admission. -/
def admitsAccepted (sys : PatientSys) : List AdmitInput → Prop
  | [] => True
  | i :: rest =>
    roomAccepted i.room sys.patientHead = true ∧
      admitsAccepted (addPatientRecord sys i.name i.age i.diagnosis i.room i.now) rest

instance admitsAcceptedDecidable (sys : PatientSys) (l : List AdmitInput) :
    Decidable (admitsAccepted sys l) := by
  induction l generalizing sys with
  | nil => exact isTrue trivial
  | cons i rest ih =>
    exact @instDecidableAnd _ _ _ (ih _)

/-- The store states reachable, within one run, from the default-initialized
    store by the store's own operations: an `addPatientRecord` whose room
    passed `getRoomNumber`'s acceptance test, or a `dischargePatient` call
    (any entered ID, confirmation character, time, file state and failure
    oracle). -/
inductive Reachable : PatientSys → Prop
  | start : Reachable initializePatientSystemDefault
  | admitStep (sys : PatientSys) (name : String) (age : Int)
      (diagnosis : String) (room : Int) (now : Int)
      (hs : Reachable sys) (hroom : roomAccepted room sys.patientHead = true) :
      Reachable (addPatientRecord sys name age diagnosis room now)
  | dischargeStep (sys : PatientSys) (fs : FS) (enteredId : Int)
      (confirm : Char) (now : Int) (o : DischargeOracle)
      (hs : Reachable sys) :
      Reachable (dischargePatient sys fs enteredId confirm now o).1

/-- The store invariant maintained by the store's own operations: active
    rooms pairwise distinct, every active room in the valid range, active
    IDs strictly increasing in list order, and every active ID below the
    counter. -/
def StoreInv (sys : PatientSys) : Prop :=
  List.Pairwise (fun a b => a.roomNumber ≠ b.roomNumber) sys.patientHead ∧
  (∀ p ∈ sys.patientHead, validateRoomNumber p.roomNumber = true) ∧
  List.Pairwise (fun a b => a.patientId < b.patientId) sys.patientHead ∧
  (∀ p ∈ sys.patientHead, p.patientId < sys.patientIDCounter)

/-- A concrete store with one admitted patient, used by witnesses. -/
def exSys1 : PatientSys :=
  addPatientRecord initializePatientSystemDefault "Jane Doe" 34 "Fracture" 12 100

/-- The record that admission creates. -/
def exPat1 : Patient := createPatient "Jane Doe" 34 "Fracture" 12 1 100

/-- The file state the first admission's append produces, starting from
    a fresh data directory (no files yet). -/
def exFS : FS :=
  (addPatientRecordFull initializePatientSystemDefault
    { patientsDat := none, patientsTmp := none, dischargedDat := [],
      roomUsage := [] } "Jane Doe" 34 "Fracture" 12 100 false).2

/-- A failure oracle on which every file operation succeeds. -/
def exOracleOk : DischargeOracle :=
  { archiveOpenFails := false, archiveWriteFails := false,
    roomLogOpenFails := false,
    update := { tmpOpenFails := false, tmpWriteFailsAt := none,
                tmpCloseFails := false } }

/-- Two concrete admissions with valid distinct unoccupied rooms. -/
def exInputs2 : List AdmitInput :=
  [{ name := "Jane Doe", age := 34, diagnosis := "Fracture", room := 12,
     now := 100 },
   { name := "Bob Roe", age := 50, diagnosis := "Flu", room := 13,
     now := 110 }]

/-- A write oracle whose first fwrite to patients.tmp fails. -/
def exFailWriteOracle : WriteOracle :=
  { tmpOpenFails := false, tmpWriteFailsAt := some 0, tmpCloseFails := false }

/-- A discharge oracle on which the fopen of discharged_patients.dat
    fails. -/
def exOracleArchiveFail : DischargeOracle :=
  { archiveOpenFails := true, archiveWriteFails := false,
    roomLogOpenFails := false,
    update := { tmpOpenFails := false, tmpWriteFailsAt := none,
                tmpCloseFails := false } }

/-- A discharge oracle on which only the patients.dat rewrite fails (fopen
    of patients.tmp returns NULL). -/
def exOracleUpdateFail : DischargeOracle :=
  { archiveOpenFails := false, archiveWriteFails := false,
    roomLogOpenFails := false,
    update := { tmpOpenFails := true, tmpWriteFailsAt := none,
                tmpCloseFails := false } }

/-- A second admission on top of `exSys1`: Bob Roe in room 13 gets ID 2. -/
def exSys2 : PatientSys := addPatientRecord exSys1 "Bob Roe" 50 "Flu" 13 110

/-- The record of that second admission. -/
def exPat2 : Patient := createPatient "Bob Roe" 50 "Flu" 13 2 110

/-- The file state after both admissions were appended to patients.dat. -/
def exFS2 : FS :=
  (addPatientRecordFull exSys1 exFS "Bob Roe" 50 "Flu" 13 110 false).2

/-- Discharging patient 2 (confirmed, every file operation succeeding). -/
def exAfterDischarge : PatientSys × FS :=
  dischargePatient exSys2 exFS2 2 'y' 300 exOracleOk

/-- Restarting the system: reload from the patients.dat the discharge
    left behind. -/
def exReloaded : PatientSys :=
  (initializePatientSystem exAfterDischarge.2.patientsDat).1

/-- The first admission after the restart (room 13 is free again). -/
def exSys3 : PatientSys :=
  addPatientRecord exReloaded "Carol Poe" 30 "Cold" 13 400

/-- A record admitted 88200 seconds (24 hours 30 minutes) before the
    report time 100000. -/
def exPatStale : Patient := createPatient "Old Timer" 70 "Obs" 20 1 11800

/-- A localtime environment (its fields are irrelevant to the Daily
    filter). -/
def exCal : Int → CalParts := fun _ => { year := 0, yday := 0, mon := 0 }

/-- The integer tokens the fscanf loop consumes: the longest run of
    integer tokens before the first token that does not parse. -/
def intTokensBeforeBad : List UsageToken → List Int
  | [] => []
  | UsageToken.bad :: _ => []
  | UsageToken.num n :: rest => n :: intTokensBeforeBad rest

/-- The validity test of `displayRoomUsageReport` as a Bool: the room
    number lies in 1..50. -/
def roomInRange (n : Int) : Bool :=
  decide (1 ≤ n) && decide (n ≤ 50)

end Hospital

namespace Hospital

theorem insertPatientAtEndOfList_eq (l : List Patient) (d : Patient) :
    insertPatientAtEndOfList l d = l ++ [d] := by
  induction l with
  | nil => rfl
  | cons p rest ih => simp [insertPatientAtEndOfList, ih]

theorem viewPatientRecords_eq (l : List Patient) :
    viewPatientRecords l = l := by
  induction l with
  | nil => rfl
  | cons p rest ih => simp [viewPatientRecords, ih]

theorem isRoomOccupiedInList_unoccupied_iff (r : Int) (l : List Patient) :
    isRoomOccupiedInList r l = ROOM_UNOCCUPIED ↔
      ∀ p ∈ l, p.roomNumber ≠ r := by
  induction l with
  | nil => simp [isRoomOccupiedInList]
  | cons p rest ih =>
    by_cases h : p.roomNumber = r
    · simp [isRoomOccupiedInList, h, ROOM_UNOCCUPIED]
    · simp [isRoomOccupiedInList, h, ih]

theorem getPatientFromList_mem {id : Int} {l : List Patient} {p : Patient}
    (h : getPatientFromList id l = some p) : p ∈ l ∧ p.patientId = id := by
  induction l with
  | nil => simp [getPatientFromList] at h
  | cons q rest ih =>
    by_cases hq : q.patientId = id
    · have : q = p := by simpa [getPatientFromList, hq] using h
      subst this
      exact ⟨List.mem_cons_self _ _, hq⟩
    · have h2 : getPatientFromList id rest = some p := by
        simpa [getPatientFromList, hq] using h
      exact ⟨List.mem_cons_of_mem _ (ih h2).1, (ih h2).2⟩

theorem getPatientFromList_ne_nil {id : Int} {l : List Patient} {p : Patient}
    (h : getPatientFromList id l = some p) : l ≠ [] := by
  intro he
  rw [he] at h
  simp [getPatientFromList] at h

theorem removeById_sublist (id : Int) (l : List Patient) :
    List.Sublist (removeById id l) l := by
  induction l with
  | nil => simp [removeById]
  | cons p rest ih =>
    by_cases h : p.patientId = id
    · rw [show removeById id (p :: rest) = rest by simp [removeById, h]]
      exact List.sublist_cons_self p rest
    · rw [show removeById id (p :: rest) = p :: removeById id rest by
        simp [removeById, h]]
      exact ih.cons₂ p

theorem removeById_room_unoccupied {l : List Patient} {id : Int} {p : Patient}
    (hpw : List.Pairwise (fun a b => a.roomNumber ≠ b.roomNumber) l)
    (h : getPatientFromList id l = some p) :
    isRoomOccupiedInList p.roomNumber (removeById id l) = ROOM_UNOCCUPIED := by
  induction l with
  | nil => simp [getPatientFromList] at h
  | cons q rest ih =>
    rcases List.pairwise_cons.mp hpw with ⟨hq, hrest⟩
    by_cases hid : q.patientId = id
    · have : q = p := by simpa [getPatientFromList, hid] using h
      subst this
      rw [show removeById id (q :: rest) = rest by simp [removeById, hid]]
      exact (isRoomOccupiedInList_unoccupied_iff _ _).mpr
        (fun x hx => (hq x hx).symm)
    · have h2 : getPatientFromList id rest = some p := by
        simpa [getPatientFromList, hid] using h
      have hmem := (getPatientFromList_mem h2).1
      have hne2 : ¬q.roomNumber = p.roomNumber := hq p hmem
      simp only [removeById, if_neg hid, isRoomOccupiedInList, if_neg hne2]
      exact ih hrest h2

theorem removePatientFromSystem_found {id : Int} {sys : PatientSys} {fs : FS}
    {o : WriteOracle} {q : Patient}
    (h : getPatientFromList id sys.patientHead = some q) :
    removePatientFromSystem id sys fs o =
      ({ patientHead := removeById id sys.patientHead,
         totalPatients := sys.totalPatients - 1,
         patientIDCounter := sys.patientIDCounter },
       updatePatientsFile (removeById id sys.patientHead) o fs) := by
  have hne : sys.patientHead ≠ [] := getPatientFromList_ne_nil h
  simp [removePatientFromSystem, hne, h]

theorem dischargePatient_success_eq {sys : PatientSys} {fs : FS}
    {enteredId now : Int} {o : DischargeOracle} {p : Patient}
    (hfind : getPatientFromList enteredId sys.patientHead = some p)
    (h1 : o.archiveOpenFails = false) (h2 : o.archiveWriteFails = false) :
    dischargePatient sys fs enteredId 'y' now o =
      removePatientFromSystem p.patientId sys
        (logRoomUsage p.roomNumber o.roomLogOpenFails
          { fs with dischargedDat := fs.dischargedDat ++ [⟨p, now⟩] })
        o.update := by
  have hne : sys.patientHead ≠ [] := getPatientFromList_ne_nil hfind
  simp [dischargePatient, hne, hfind, confirmDischarge, h1, h2]

theorem dischargePatient_fst_cases (sys : PatientSys) (fs : FS)
    (enteredId : Int) (confirm : Char) (now : Int) (o : DischargeOracle) :
    (dischargePatient sys fs enteredId confirm now o).1 = sys ∨
    ∃ p, getPatientFromList enteredId sys.patientHead = some p ∧
      (dischargePatient sys fs enteredId confirm now o).1 =
        { patientHead := removeById p.patientId sys.patientHead,
          totalPatients := sys.totalPatients - 1,
          patientIDCounter := sys.patientIDCounter } := by
  by_cases hne : sys.patientHead = []
  · left; simp [dischargePatient, hne]
  · cases hfind : getPatientFromList enteredId sys.patientHead with
    | none => left; simp [dischargePatient, hne, hfind]
    | some p =>
      by_cases hc : confirmDischarge confirm
      · by_cases ha : o.archiveOpenFails
        · left; simp [dischargePatient, hne, hfind, hc, ha]
        · by_cases hw : o.archiveWriteFails
          · left; simp [dischargePatient, hne, hfind, hc, ha, hw]
          · right
            refine ⟨p, rfl, ?_⟩
            have hid : p.patientId = enteredId := (getPatientFromList_mem hfind).2
            have hfind2 : getPatientFromList p.patientId sys.patientHead = some p := by
              rw [hid]; exact hfind
            simp [dischargePatient, hne, hfind, hc, ha, hw,
              removePatientFromSystem_found hfind2]
      · left; simp [dischargePatient, hne, hfind, hc]

theorem reachable_storeInv {sys : PatientSys} (h : Reachable sys) :
    StoreInv sys := by
  induction h with
  | start => simp [StoreInv, initializePatientSystemDefault]
  | admitStep sys name age diagnosis room now hs hroom ih =>
    obtain ⟨hrooms, hvalid, hids, hlt⟩ := ih
    rw [roomAccepted, Bool.and_eq_true] at hroom
    obtain ⟨hv, hocc⟩ := hroom
    have hocc2 : ∀ p ∈ sys.patientHead, p.roomNumber ≠ room :=
      (isRoomOccupiedInList_unoccupied_iff _ _).mp (of_decide_eq_true hocc)
    refine ⟨?_, ?_, ?_, ?_⟩
    · simp only [addPatientRecord, insertPatientAtEndOfList_eq]
      rw [List.pairwise_append]
      refine ⟨hrooms, by simp, ?_⟩
      intro a ha b hb
      simp only [List.mem_singleton] at hb
      subst hb
      simpa [createPatient] using hocc2 a ha
    · simp only [addPatientRecord, insertPatientAtEndOfList_eq]
      intro p hp
      rcases List.mem_append.mp hp with hp | hp
      · exact hvalid p hp
      · simp only [List.mem_singleton] at hp
        subst hp
        simpa [createPatient] using hv
    · simp only [addPatientRecord, insertPatientAtEndOfList_eq]
      rw [List.pairwise_append]
      refine ⟨hids, by simp, ?_⟩
      intro a ha b hb
      simp only [List.mem_singleton] at hb
      subst hb
      simpa [createPatient] using hlt a ha
    · simp only [addPatientRecord, insertPatientAtEndOfList_eq]
      intro p hp
      rcases List.mem_append.mp hp with hp | hp
      · have := hlt p hp
        omega
      · simp only [List.mem_singleton] at hp
        subst hp
        simp [addPatientRecord, createPatient]
  | dischargeStep sys fs enteredId confirm now o hs ih =>
    obtain ⟨hrooms, hvalid, hids, hlt⟩ := ih
    rcases dischargePatient_fst_cases sys fs enteredId confirm now o with
      heq | ⟨p, hfind, heq⟩
    · rw [heq]; exact ⟨hrooms, hvalid, hids, hlt⟩
    · rw [heq]
      have hsub := removeById_sublist p.patientId sys.patientHead
      refine ⟨hrooms.sublist hsub, ?_, hids.sublist hsub, ?_⟩
      · intro q hq
        exact hvalid q (hsub.subset hq)
      · intro q hq
        exact hlt q (hsub.subset hq)

theorem maxIdLoop_eq_foldl (l : List Patient) (a : Int) :
    maxIdLoop l a = (l.map Patient.patientId).foldl max a := by
  induction l generalizing a with
  | nil => rfl
  | cons p rest ih =>
    rw [show maxIdLoop (p :: rest) a =
        maxIdLoop rest (if p.patientId > a then p.patientId else a) from rfl]
    rw [ih, List.map_cons, List.foldl_cons]
    congr 1
    split <;> omega

/-- C1: in every store state reachable by the store's own operations, at
    most one active record holds a given room number (pairwise-distinct
    rooms); for a room in the valid range, the room-number step of Admit
    rejects (re-prompts) it iff some record in the active list already
    holds that room at call time; and after a successful confirmed
    Discharge of an existing patient, the discharged record's room is
    reported unoccupied by isRoomOccupiedInList and is accepted by the
    next Admit's room step. -/
theorem C1_room_exclusivity (sys : PatientSys) (hreach : Reachable sys) :
    List.Pairwise (fun a b => a.roomNumber ≠ b.roomNumber) sys.patientHead ∧
    (∀ room : Int, validateRoomNumber room = true →
      (roomAccepted room sys.patientHead = false ↔
        ∃ p ∈ sys.patientHead, p.roomNumber = room)) ∧
    (∀ enteredId : Int, ∀ p : Patient, ∀ fs : FS, ∀ now : Int,
        ∀ o : DischargeOracle,
      getPatientFromList enteredId sys.patientHead = some p →
      o.archiveOpenFails = false → o.archiveWriteFails = false →
      isRoomOccupiedInList p.roomNumber
          (dischargePatient sys fs enteredId 'y' now o).1.patientHead =
        ROOM_UNOCCUPIED ∧
      roomAccepted p.roomNumber
          (dischargePatient sys fs enteredId 'y' now o).1.patientHead =
        true) := by
  obtain ⟨hrooms, hvalid, _, _⟩ := reachable_storeInv hreach
  refine ⟨hrooms, ?_, ?_⟩
  · intro room hv
    constructor
    · intro hrej
      unfold roomAccepted at hrej
      rw [hv, Bool.true_and] at hrej
      have h1 : ¬ (∀ p ∈ sys.patientHead, p.roomNumber ≠ room) := by
        intro hall
        have h2 := (isRoomOccupiedInList_unoccupied_iff room _).mpr hall
        simp [h2] at hrej
      push_neg at h1
      exact h1
    · rintro ⟨p, hp, hproom⟩
      unfold roomAccepted
      rw [hv, Bool.true_and]
      simp only [decide_eq_false_iff_not]
      intro he
      exact (isRoomOccupiedInList_unoccupied_iff room _).mp he p hp hproom
  · intro enteredId p fs now o hfind h1 h2
    have hid : p.patientId = enteredId := (getPatientFromList_mem hfind).2
    have hfind2 : getPatientFromList p.patientId sys.patientHead = some p := by
      rw [hid]; exact hfind
    rw [dischargePatient_success_eq hfind h1 h2,
      removePatientFromSystem_found hfind2]
    have hunocc := removeById_room_unoccupied hrooms hfind2
    refine ⟨hunocc, ?_⟩
    unfold roomAccepted
    rw [hvalid p (getPatientFromList_mem hfind).1, Bool.true_and,
      decide_eq_true_eq]
    exact hunocc

theorem C1_room_exclusivity_witness :
    isRoomOccupiedInList 12
        (dischargePatient exSys1 exFS 1 'y' 200 exOracleOk).1.patientHead =
      ROOM_UNOCCUPIED ∧
    roomAccepted 12
        (dischargePatient exSys1 exFS 1 'y' 200 exOracleOk).1.patientHead =
      true := by
  have hreach : Reachable exSys1 :=
    Reachable.admitStep initializePatientSystemDefault "Jane Doe" 34
      "Fracture" 12 100 Reachable.start (by decide)
  exact (C1_room_exclusivity exSys1 hreach).2.2 1 exPat1 exFS 200 exOracleOk
    rfl rfl rfl

/-- C10: Discharge mutates nothing without an exact lowercase y
    confirmation: for any existing entered patient ID, if the confirmation
    character is anything other than y, then the whole store state and the
    whole file state (active list, count, ID counter, patients.dat,
    discharge archive, room-usage log) are returned unchanged — no archive
    append or room-usage line is written before confirmation. -/
theorem C10_discharge_requires_confirmation (sys : PatientSys) (fs : FS)
    (enteredId : Int) (p : Patient) (confirm : Char) (now : Int)
    (o : DischargeOracle)
    (hfind : getPatientFromList enteredId sys.patientHead = some p)
    (hc : confirm ≠ 'y') :
    dischargePatient sys fs enteredId confirm now o = (sys, fs) := by
  have hne : sys.patientHead ≠ [] := getPatientFromList_ne_nil hfind
  have hcb : confirmDischarge confirm = false := by
    simp [confirmDischarge, hc]
  simp [dischargePatient, hne, hfind, hcb]

theorem C10_discharge_requires_confirmation_witness :
    dischargePatient exSys1 exFS 1 'n' 200 exOracleOk = (exSys1, exFS) :=
  C10_discharge_requires_confirmation exSys1 exFS 1 exPat1 'n' 200
    exOracleOk rfl (by decide)

/-- C6: loading from a missing or empty patients.dat is not an error: it
    yields the empty collection with the counter at DEFAULT_ID; loading a
    file holding records yields exactly those records and sets the counter
    to the maximum existing ID (floored at 0) plus one. -/
theorem C6_load_recomputes_counter :
    ((initializePatientSystem none).1 = initializePatientSystemDefault ∧
     (initializePatientSystem (some ⟨[], 0⟩)).1 =
       initializePatientSystemDefault ∧
     initializePatientSystemDefault.patientHead = [] ∧
     initializePatientSystemDefault.patientIDCounter = DEFAULT_ID) ∧
    (∀ f : DatFile, f.records ≠ [] →
      (initializePatientSystem (some f)).1.patientHead = f.records ∧
      (initializePatientSystem (some f)).1.patientIDCounter =
        (f.records.map Patient.patientId).foldl max 0 + 1) := by
  refine ⟨⟨rfl, rfl, rfl, rfl⟩, ?_⟩
  intro f hrec
  have h1 : ¬(f.records = [] ∧ f.trailingBytes = 0) := fun h => hrec h.1
  constructor
  · simp [initializePatientSystem, h1, hrec]
  · simp [initializePatientSystem, h1, hrec, computeNextPatientId,
      maxIdLoop_eq_foldl]

theorem C6_load_recomputes_counter_witness :
    (initializePatientSystem (some ⟨[exPat1], 0⟩)).1.patientHead = [exPat1] ∧
    (initializePatientSystem (some ⟨[exPat1], 0⟩)).1.patientIDCounter = 2 := by
  have h := C6_load_recomputes_counter.2 ⟨[exPat1], 0⟩ (by simp)
  exact ⟨h.1, by rw [h.2]; decide⟩

/-- C9: the load of a patients.dat holding complete fixed-layout records
    followed by a truncated final fragment stops exactly after the last
    complete record: the resulting collection is precisely the complete
    records in file order (the fread loop is total — it neither crashes
    nor resynchronizes past the fragment). -/
theorem C9_truncated_file_load (f : DatFile) (htr : 0 < f.trailingBytes) :
    (initializePatientSystem (some f)).1.patientHead = f.records := by
  have h0 : f.trailingBytes ≠ 0 := by omega
  by_cases hrec : f.records = []
  · rw [hrec]
    simp [initializePatientSystem, hrec, h0, initializePatientSystemDefault]
  · have h1 : ¬(f.records = [] ∧ f.trailingBytes = 0) := fun h => hrec h.1
    simp [initializePatientSystem, h1, hrec]

theorem C9_truncated_file_load_witness :
    (initializePatientSystem (some ⟨[exPat1], 7⟩)).1.patientHead =
      [exPat1] :=
  C9_truncated_file_load ⟨[exPat1], 7⟩ (by decide)

theorem runAdmits_patientHead : ∀ (inputs : List AdmitInput) (sys : PatientSys),
    (runAdmits sys inputs).patientHead =
      sys.patientHead ++ admittedRecords sys.patientIDCounter inputs := by
  intro inputs
  induction inputs with
  | nil => intro sys; simp [runAdmits, admittedRecords]
  | cons i rest ih =>
    intro sys
    rw [show runAdmits sys (i :: rest) =
        runAdmits (addPatientRecord sys i.name i.age i.diagnosis i.room i.now)
          rest from rfl]
    rw [ih]
    simp [addPatientRecord, insertPatientAtEndOfList_eq, admittedRecords]

theorem admittedRecords_ids : ∀ (inputs : List AdmitInput) (c : Int),
    (admittedRecords c inputs).map Patient.patientId =
      (List.range inputs.length).map (fun k : Nat => c + (k : Int)) := by
  intro inputs
  induction inputs with
  | nil => intro c; simp [admittedRecords]
  | cons i rest ih =>
    intro c
    rw [show admittedRecords c (i :: rest) =
        createPatient i.name i.age i.diagnosis i.room c i.now ::
          admittedRecords (c + 1) rest from rfl]
    rw [List.map_cons, ih]
    rw [show (i :: rest : List AdmitInput).length = rest.length + 1 from rfl]
    rw [List.range_succ_eq_map, List.map_cons, List.map_map]
    refine congrArg₂ _ (by simp [createPatient]) ?_
    refine List.map_congr_left ?_
    intro k _
    simp only [Function.comp_apply]
    push_cast
    ring

theorem admittedRecords_ids_pairwise (c : Int) (inputs : List AdmitInput) :
    List.Pairwise (fun a b => a < b)
      ((admittedRecords c inputs).map Patient.patientId) := by
  rw [admittedRecords_ids]
  refine List.Pairwise.map _ ?_ (List.pairwise_lt_range inputs.length)
  intro a b h
  omega

/-- C2: along any run of successful admissions (each with validated fields
    and an accepted room) from any starting store state, the run's records
    are handed out the consecutive IDs counter, counter+1, ..., which are
    strictly increasing (hence unique within the run), and the traversal
    of viewPatientRecords yields the prior records followed by the new
    ones in admission order (insertion at end of list). -/
theorem C2_ids_strictly_increasing (sys : PatientSys)
    (inputs : List AdmitInput) (_hacc : admitsAccepted sys inputs) :
    viewPatientRecords (runAdmits sys inputs).patientHead =
      sys.patientHead ++ admittedRecords sys.patientIDCounter inputs ∧
    (admittedRecords sys.patientIDCounter inputs).map Patient.patientId =
      (List.range inputs.length).map
        (fun k : Nat => sys.patientIDCounter + (k : Int)) ∧
    List.Pairwise (fun a b => a < b)
      ((admittedRecords sys.patientIDCounter inputs).map Patient.patientId) := by
  refine ⟨?_, admittedRecords_ids inputs sys.patientIDCounter,
    admittedRecords_ids_pairwise sys.patientIDCounter inputs⟩
  rw [viewPatientRecords_eq, runAdmits_patientHead]

theorem C2_ids_strictly_increasing_witness :
    viewPatientRecords
        (runAdmits initializePatientSystemDefault exInputs2).patientHead =
      initializePatientSystemDefault.patientHead ++
        admittedRecords initializePatientSystemDefault.patientIDCounter
          exInputs2 ∧
    (admittedRecords initializePatientSystemDefault.patientIDCounter
        exInputs2).map Patient.patientId =
      (List.range exInputs2.length).map
        (fun k : Nat => initializePatientSystemDefault.patientIDCounter + (k : Int)) ∧
    List.Pairwise (fun a b => a < b)
      ((admittedRecords initializePatientSystemDefault.patientIDCounter
          exInputs2).map Patient.patientId) :=
  C2_ids_strictly_increasing initializePatientSystemDefault exInputs2
    (by decide)

/-- C3: updatePatientsFile is atomic with respect to patients.dat: when the
    temp file opens, a clean write of the whole in-memory collection and a
    clean close replace patients.dat with exactly that collection
    (remove-then-rename); if any fwrite or the fclose fails, patients.dat
    keeps its prior contents and patients.tmp is discarded; a failed fopen
    of the temp file changes nothing. -/
theorem C3_rewrite_is_atomic (mem : List Patient) (o : WriteOracle)
    (fs : FS) :
    (o.tmpOpenFails = true → updatePatientsFile mem o fs = fs) ∧
    (o.tmpOpenFails = false →
      (tmpWriteError mem o.tmpWriteFailsAt || o.tmpCloseFails) = true →
      (updatePatientsFile mem o fs).patientsDat = fs.patientsDat ∧
      (updatePatientsFile mem o fs).patientsTmp = none ∧
      (updatePatientsFile mem o fs).dischargedDat = fs.dischargedDat ∧
      (updatePatientsFile mem o fs).roomUsage = fs.roomUsage) ∧
    (o.tmpOpenFails = false →
      (tmpWriteError mem o.tmpWriteFailsAt || o.tmpCloseFails) = false →
      (updatePatientsFile mem o fs).patientsDat = some ⟨mem, 0⟩ ∧
      (updatePatientsFile mem o fs).patientsTmp = none) := by
  refine ⟨?_, ?_, ?_⟩
  · intro h
    simp [updatePatientsFile, h]
  · intro h he
    simp [updatePatientsFile, h, he]
  · intro h he
    have hw : writtenTmpRecords mem o.tmpWriteFailsAt = mem := by
      cases hf : o.tmpWriteFailsAt with
      | none => rfl
      | some i =>
        rw [hf] at he
        rw [Bool.or_eq_false_iff] at he
        have hi : ¬ i < mem.length := by
          have := he.1
          simpa [tmpWriteError] using this
        simp [writtenTmpRecords, List.take_of_length_le (le_of_not_lt hi)]
    simp [updatePatientsFile, h, he, hw]

theorem C3_rewrite_is_atomic_witness :
    (updatePatientsFile [exPat1] exFailWriteOracle exFS).patientsDat =
      exFS.patientsDat ∧
    (updatePatientsFile [exPat1] exFailWriteOracle exFS).patientsTmp =
      none := by
  have h :=
    (C3_rewrite_is_atomic [exPat1] exFailWriteOracle exFS).2.1 rfl (by decide)
  exact ⟨h.1, h.2.1⟩

/-- Counterexample to C4: patient 1 exists in `exSys1` and the discharge is
    confirmed with y, yet when the archive append fails (fopen of
    discharged_patients.dat returns NULL) dischargePatient returns early:
    the store and files are completely unchanged and the patient is still
    in the active list — the in-memory removal does NOT proceed. -/
theorem C4_counterexample :
    getPatientFromList 1 exSys1.patientHead = some exPat1 ∧
    dischargePatient exSys1 exFS 1 'y' 200 exOracleArchiveFail =
      (exSys1, exFS) ∧
    exSys1.patientHead = [exPat1] := by
  refine ⟨by decide, by decide, by decide⟩

/-- C4 amended: for a confirmed discharge of an existing patient, if the
    archive append fails (fopen or fwrite of discharged_patients.dat), the
    operation returns early and the in-memory removal does NOT happen; it
    is only when the archive append succeeds that the removal proceeds —
    and then it proceeds regardless of any failure of the room-usage log
    append or of the patients.dat rewrite (those failures are surfaced as
    warnings and swallowed). -/
theorem C4_amended_removal_vs_persistence (sys : PatientSys) (fs : FS)
    (enteredId : Int) (p : Patient) (now : Int) (o : DischargeOracle)
    (hfind : getPatientFromList enteredId sys.patientHead = some p) :
    (o.archiveOpenFails = true →
      dischargePatient sys fs enteredId 'y' now o = (sys, fs)) ∧
    (o.archiveOpenFails = false → o.archiveWriteFails = true →
      dischargePatient sys fs enteredId 'y' now o = (sys, fs)) ∧
    (o.archiveOpenFails = false → o.archiveWriteFails = false →
      (dischargePatient sys fs enteredId 'y' now o).1 =
        { patientHead := removeById p.patientId sys.patientHead,
          totalPatients := sys.totalPatients - 1,
          patientIDCounter := sys.patientIDCounter }) := by
  have hne : sys.patientHead ≠ [] := getPatientFromList_ne_nil hfind
  have hid : p.patientId = enteredId := (getPatientFromList_mem hfind).2
  have hfind2 : getPatientFromList p.patientId sys.patientHead = some p := by
    rw [hid]; exact hfind
  refine ⟨?_, ?_, ?_⟩
  · intro h
    simp [dischargePatient, hne, hfind, confirmDischarge, h]
  · intro h hw
    simp [dischargePatient, hne, hfind, confirmDischarge, h, hw]
  · intro h hw
    rw [dischargePatient_success_eq hfind h hw,
      removePatientFromSystem_found hfind2]

theorem C4_amended_removal_vs_persistence_witness :
    (dischargePatient exSys1 exFS 1 'y' 200 exOracleUpdateFail).1 =
      { patientHead := [], totalPatients := 0, patientIDCounter := 2 } := by
  have h :=
    (C4_amended_removal_vs_persistence exSys1 exFS 1 exPat1 200
        exOracleUpdateFail rfl).2.2 rfl rfl
  rw [h]
  decide

/-- Counterexample to C5: run Admit(ID 1), Admit(ID 2), Discharge(2),
    restart (reload from patients.dat), Admit again.  The archive holds a
    DischargeRecord with ID 2, the reloaded counter is
    computeNextPatientId = max(active IDs) + 1 = 2, and the new admission
    is handed ID 2 — the ID of the previously discharged patient is
    assigned again, so IDs are not unique across active and ever-discharged
    records once the system is restarted. -/
theorem C5_counterexample :
    exAfterDischarge.2.dischargedDat.map (fun d => d.patient.patientId) =
      [2] ∧
    exAfterDischarge.2.patientsDat = some ⟨[exPat1], 0⟩ ∧
    exReloaded.patientIDCounter = 2 ∧
    roomAccepted 13 exReloaded.patientHead = true ∧
    exSys3.patientHead.map Patient.patientId = [1, 2] := by
  refine ⟨by decide, by decide, by decide, by decide, by decide⟩

/-- C5 amended: patient IDs are unique among active records and never
    reused within a single run (in every reachable store state the active
    IDs are strictly increasing in admission order and all lie below the
    counter); across a restart, however, the counter is recomputed from
    the active records alone, so the ID of a previously discharged record
    can be handed out again. -/
theorem C5_amended_ids_unique_within_run (sys : PatientSys)
    (hreach : Reachable sys) :
    List.Pairwise (fun a b => a < b)
      (sys.patientHead.map Patient.patientId) ∧
    ∀ p ∈ sys.patientHead, p.patientId < sys.patientIDCounter := by
  obtain ⟨_, _, hids, hlt⟩ := reachable_storeInv hreach
  exact ⟨List.Pairwise.map _ (fun a b h => h) hids, hlt⟩

theorem C5_amended_ids_unique_within_run_witness :
    List.Pairwise (fun a b => a < b)
      (exSys2.patientHead.map Patient.patientId) := by
  have hreach : Reachable exSys2 :=
    Reachable.admitStep exSys1 "Bob Roe" 50 "Flu" 13 110
      (Reachable.admitStep initializePatientSystemDefault "Jane Doe" 34
        "Fracture" 12 100 Reachable.start (by decide))
      (by decide)
  exact (C5_amended_ids_unique_within_run exSys2 hreach).1

theorem past24Hours_eq_decide (now adm : Int) :
    past24Hours now adm = decide (now - adm < 25 * 3600) := by
  unfold past24Hours cDivTrunc
  rw [decide_eq_decide]
  simp only [show (3600 : Int).toNat = 3600 from rfl,
    show (3600 : Int).natAbs = 3600 from rfl]
  split <;> omega

theorem timeframeMatch_one (cal : Int → CalParts) (now adm : Int) :
    timeframeMatch 1 cal now adm = past24Hours now adm := by
  simp [timeframeMatch]

theorem countByTimeframeLoop_daily (cal : Int → CalParts) (now : Int) :
    ∀ (l : List Patient) (acc : Int),
      countByTimeframeLoop 1 cal now l acc =
        acc + ((l.filter fun p => past24Hours now p.admissionDate).length : Int) := by
  intro l
  induction l with
  | nil => intro acc; simp [countByTimeframeLoop]
  | cons p rest ih =>
    intro acc
    rw [show countByTimeframeLoop 1 cal now (p :: rest) acc =
        countByTimeframeLoop 1 cal now rest
          (if timeframeMatch 1 cal now p.admissionDate then acc + 1 else acc)
      from rfl]
    rw [ih, timeframeMatch_one]
    by_cases h : past24Hours now p.admissionDate
    · rw [if_pos h]
      rw [show (p :: rest).filter (fun q => past24Hours now q.admissionDate) =
          p :: rest.filter (fun q => past24Hours now q.admissionDate) by
        simp [List.filter_cons, h]]
      push_cast [List.length_cons]
      ring
    · rw [if_neg h]
      rw [show (p :: rest).filter (fun q => past24Hours now q.admissionDate) =
          rest.filter (fun q => past24Hours now q.admissionDate) by
        simp [List.filter_cons, h]]

/-- Counterexample to C7: this record's timestamp is 88200 seconds — more
    than 24 hours — before now, yet the Daily filter counts it and
    printFormattedReport prints it, because the C code truncates the hour
    difference ((int)(88200 s / 3600) = 24 <= 24) instead of comparing
    against a 24-hour window. -/
theorem C7_counterexample :
    (100000 : Int) - exPatStale.admissionDate = 88200 ∧
    ((24 : Int) * 3600 < 88200) ∧
    countPatientsByTimeframe [exPatStale] 1 100000 exCal = 1 ∧
    printFormattedReportRecords [exPatStale] 1 1 100000 exCal =
      [exPatStale] := by
  refine ⟨by decide, by decide, by decide, by decide⟩

/-- C7 amended: the Daily timeframe filter includes a record exactly when
    the truncated hour difference (int)((now - timestamp)/3600) is at most
    24, i.e. exactly when the record's timestamp is less than 25 hours
    (90000 seconds) before now; records 25 or more hours old are excluded
    and not counted, and both the count and the printed report lines use
    this same window. -/
theorem C7_amended_daily_window (head : List Patient) (now : Int)
    (cal : Int → CalParts) :
    countPatientsByTimeframe head 1 now cal =
      ((head.filter fun p =>
          decide (now - p.admissionDate < 25 * 3600)).length : Int) ∧
    ∀ result : Int, result ≠ 0 →
      printFormattedReportRecords head result 1 now cal =
        head.filter fun p => decide (now - p.admissionDate < 25 * 3600) := by
  have hfeq : ∀ l : List Patient,
      (l.filter fun p => past24Hours now p.admissionDate) =
        l.filter fun p => decide (now - p.admissionDate < 25 * 3600) := by
    intro l
    refine List.filter_congr ?_
    intro p _
    rw [past24Hours_eq_decide]
  constructor
  · by_cases h : head = []
    · subst h; simp [countPatientsByTimeframe]
    · rw [show countPatientsByTimeframe head 1 now cal =
          countByTimeframeLoop 1 cal now head 0 by
        simp [countPatientsByTimeframe, h]]
      rw [countByTimeframeLoop_daily, hfeq]
      ring
  · intro result hres
    rw [show printFormattedReportRecords head result 1 now cal =
        head.filter (fun p => timeframeMatch 1 cal now p.admissionDate) by
      simp [printFormattedReportRecords, hres]]
    rw [show head.filter (fun p => timeframeMatch 1 cal now p.admissionDate) =
        head.filter (fun p => past24Hours now p.admissionDate) by
      refine List.filter_congr ?_
      intro p _
      rw [timeframeMatch_one]]
    exact hfeq head

theorem C7_amended_daily_window_witness :
    countPatientsByTimeframe [exPatStale] 1 100000 exCal =
      (([exPatStale].filter fun p =>
          decide ((100000 : Int) - p.admissionDate < 25 * 3600)).length : Int) ∧
    printFormattedReportRecords [exPatStale] 1 1 100000 exCal =
      [exPatStale].filter fun p =>
        decide ((100000 : Int) - p.admissionDate < 25 * 3600) := by
  have h := C7_amended_daily_window [exPatStale] 100000 exCal
  exact ⟨h.1, h.2 1 (by decide)⟩

theorem roomScanLoop_spec : ∀ (tokens : List UsageToken) (st : RoomUsageScan),
    (roomScanLoop tokens st).totalEntries =
      st.totalEntries + ((intTokensBeforeBad tokens).length : Int) ∧
    (roomScanLoop tokens st).validEntries =
      st.validEntries +
        (((intTokensBeforeBad tokens).filter roomInRange).length : Int) ∧
    ∀ r : Int, (roomScanLoop tokens st).roomCounts r =
      st.roomCounts r +
        (((intTokensBeforeBad tokens).filter roomInRange).count r : Int) := by
  intro tokens
  induction tokens with
  | nil =>
    intro st
    refine ⟨by simp [roomScanLoop, intTokensBeforeBad], ?_, ?_⟩
    · simp [roomScanLoop, intTokensBeforeBad]
    · intro r; simp [roomScanLoop, intTokensBeforeBad]
  | cons t rest ih =>
    cases t with
    | bad =>
      intro st
      refine ⟨by simp [roomScanLoop, intTokensBeforeBad], ?_, ?_⟩
      · simp [roomScanLoop, intTokensBeforeBad]
      · intro r; simp [roomScanLoop, intTokensBeforeBad]
    | num n =>
      intro st
      rw [show intTokensBeforeBad (UsageToken.num n :: rest) =
          n :: intTokensBeforeBad rest from rfl]
      by_cases h : 1 ≤ n ∧ n ≤ 50
      · have hb : roomInRange n = true := by
          simp [roomInRange, h.1, h.2]
        rw [show roomScanLoop (UsageToken.num n :: rest) st =
            roomScanLoop rest
              { roomCounts := bumpRoom st.roomCounts n,
                totalEntries := st.totalEntries + 1,
                validEntries := st.validEntries + 1 } by
          simp [roomScanLoop, h]]
        obtain ⟨h1, h2, h3⟩ := ih
          { roomCounts := bumpRoom st.roomCounts n,
            totalEntries := st.totalEntries + 1,
            validEntries := st.validEntries + 1 }
        rw [show (n :: intTokensBeforeBad rest).filter roomInRange =
            n :: (intTokensBeforeBad rest).filter roomInRange by
          simp [List.filter_cons, hb]]
        refine ⟨?_, ?_, ?_⟩
        · rw [h1]; simp only [List.length_cons]; push_cast; ring
        · rw [h2]; simp only [List.length_cons]; push_cast; ring
        · intro r
          rw [h3 r, List.count_cons]
          by_cases hr : r = n
          · subst hr
            have hbn : (r == r) = true := by simp
            simp only [bumpRoom, if_pos rfl, hbn, if_true]
            push_cast
            ring
          · have hbn : (n == r) = false := by
              simp only [beq_eq_false_iff_ne, ne_eq]
              intro hh
              exact hr hh.symm
            simp only [bumpRoom, if_neg hr, hbn, if_false]
            push_cast
            ring
      · have hb : roomInRange n = false := by
          simp only [roomInRange]
          rcases not_and_or.mp h with h1 | h1 <;> simp [h1]
        rw [show roomScanLoop (UsageToken.num n :: rest) st =
            roomScanLoop rest { st with totalEntries := st.totalEntries + 1 } by
          simp [roomScanLoop, h]]
        obtain ⟨h1, h2, h3⟩ := ih { st with totalEntries := st.totalEntries + 1 }
        rw [show (n :: intTokensBeforeBad rest).filter roomInRange =
            (intTokensBeforeBad rest).filter roomInRange by
          simp [List.filter_cons, hb]]
        refine ⟨?_, ?_, ?_⟩
        · rw [h1]; simp only [List.length_cons]; push_cast; ring
        · rw [h2]
        · intro r; rw [h3 r]

/-- Counterexample to C8: on the token sequence 12, non-integer, 13 the
    scan reads only the first token — totalEntries is 1, the non-integer
    token is not counted as an invalid entry, and the in-range room 13
    after it is never counted — because fscanf("%d") returns 0 on the
    non-integer token and the while loop exits instead of skipping the
    line and continuing. -/
theorem C8_counterexample :
    (displayRoomUsageReportScan
        [UsageToken.num 12, UsageToken.bad, UsageToken.num 13]).totalEntries
      = 1 ∧
    (displayRoomUsageReportScan
        [UsageToken.num 12, UsageToken.bad, UsageToken.num 13]).roomCounts 13
      = 0 ∧
    (displayRoomUsageReportScan
        [UsageToken.num 12, UsageToken.bad, UsageToken.num 13]).roomCounts 12
      = 1 := by
  refine ⟨by decide, by decide, by decide⟩

/-- C8 amended: the fscanf loop of displayRoomUsageReport consumes exactly
    the integer tokens before the first non-integer token: each of them is
    counted in totalEntries; those outside 1..50 are warned about and
    skipped while scanning continues; each in-range one increments its
    room's count and validEntries; and a token that is not a valid integer
    ends the scan at that point (it is not counted and the rest of the
    file is not read).  The scan itself is total — it never aborts. -/
theorem C8_amended_scan_stops_at_bad_token (tokens : List UsageToken) :
    (displayRoomUsageReportScan tokens).totalEntries =
      ((intTokensBeforeBad tokens).length : Int) ∧
    (displayRoomUsageReportScan tokens).validEntries =
      (((intTokensBeforeBad tokens).filter roomInRange).length : Int) ∧
    ∀ r : Int,
      (displayRoomUsageReportScan tokens).roomCounts r =
        (((intTokensBeforeBad tokens).filter roomInRange).count r : Int) := by
  obtain ⟨h1, h2, h3⟩ := roomScanLoop_spec tokens
    { roomCounts := fun _ => 0, totalEntries := 0, validEntries := 0 }
  refine ⟨by simpa using h1, by simpa using h2, ?_⟩
  intro r
  simpa using h3 r

end Hospital
